import Mathlib

/-!
Shallow embedding of the incremental HeyReach → Attio sync engine
(`src/heyreach-backfill.js`) together with proofs about its reconciliation,
watermarking, deduplication, pagination and error-handling behaviour.

Modelling conventions:
* JavaScript strings are `String`; all operations on them are implemented
  over their character lists so that they evaluate inside the kernel.
* JavaScript `null`/`undefined` is `Option.none`; a plain object field that
  is always a string is `String`.
* Field-access chains `a.x || a.x_alt || ''` that merely tolerate two
  spellings of the same key in the Source payload are collapsed into one
  already-coalesced `String` field of the corresponding structure.
* Network effects are turned into explicit oracle parameters
  (`offset ↦ page`, `leadId ↦ result`), and the shared mutable maps of the
  script become explicit state threaded through folds.
* Floating-point derived metrics (`response_time_hours`, `response_rate`)
  and wall-clock derived ones (`conversation_stage`, `last_synced` content)
  are outside the shallow embedding; the first two are omitted from the
  thread row, the clock is an explicit `nowIso` parameter.
-/

namespace HeyReach

/-- JavaScript `String.prototype.trim` on a character list. -/
def jsTrimChars (l : List Char) : List Char :=
  ((l.dropWhile Char.isWhitespace).reverse.dropWhile Char.isWhitespace).reverse

/-- JavaScript `url.trim()`. -/
def jsTrim (s : String) : String :=
  String.mk (jsTrimChars s.data)

/-- JavaScript `s.split(/\s+/)`: split on maximal whitespace runs, keeping
the leading/trailing empty piece exactly as the regex split does. -/
def jsSplitWsAux : Bool → List Char → List Char → List String
  | _, [], cur => [String.mk cur.reverse]
  | prevWs, c :: cs, cur =>
    if c.isWhitespace then
      if prevWs then jsSplitWsAux true cs cur
      else String.mk cur.reverse :: jsSplitWsAux true cs []
    else jsSplitWsAux false cs (c :: cur)

/-- JavaScript `s.split(/\s+/)`. -/
def jsSplitWs (s : String) : List String :=
  jsSplitWsAux false s.data []

/-- JavaScript truthiness of a `string | null` value. -/
def truthy : Option String → Bool
  | none => false
  | some s => s ≠ ""

/-- JavaScript `s || null` for a string-valued expression. -/
def jsOrNull (s : String) : Option String :=
  if s = "" then none else some s

/-- JavaScript `x || ''` for a `string | null` value. -/
def orEmpty (o : Option String) : String :=
  o.getD ""

/-- JavaScript `a <= b` on strings: lexicographic comparison of code units. -/
def charsLe : List Char → List Char → Bool
  | [], _ => true
  | _ :: _, [] => false
  | a :: xs, b :: ys =>
    if a.toNat < b.toNat then true
    else if b.toNat < a.toNat then false
    else charsLe xs ys

/-- JavaScript `a <= b` on strings. -/
def jsLe (a b : String) : Bool :=
  charsLe a.data b.data

/-! ## A model of the WHATWG `URL` constructor

`normalizeLinkedInUrl` (line 319) parses its input with `new URL(...)`.
We model the fragment of `URL` the engine relies on: absolute
`scheme://host/path[?search][#hash]` URLs whose host is made of ASCII
letters, digits, `.` and `-` (lower-cased, as the constructor does) and
whose path is made of characters the constructor leaves unescaped.
URLs outside this fragment (relative URLs, userinfo, ports, characters
that `URL` percent-encodes…) are treated as unparseable, which lands in
the same `catch`/non-LinkedIn branch that returns the trimmed input. -/

/-- ASCII letters (the characters accepted in a scheme). -/
def schemeChar (c : Char) : Bool :=
  (65 ≤ c.toNat ∧ c.toNat ≤ 90) ∨ (97 ≤ c.toNat ∧ c.toNat ≤ 122)

/-- ASCII digits. -/
def digitChar (c : Char) : Bool :=
  48 ≤ c.toNat ∧ c.toNat ≤ 57

/-- Characters accepted in the host component of the URL model. -/
def hostChar (c : Char) : Bool :=
  schemeChar c || digitChar c || c = '.' || c = '-'

/-- Characters the `URL` constructor keeps verbatim in a path. -/
def pathChar (c : Char) : Bool :=
  schemeChar c || digitChar c ||
    c ∈ ['/', '-', '_', '.', '~', '%', ':', '@', '!', '$', '&', '(', ')', '*', '+', ',', ';', '=']

/-- Split a character list at the first occurrence of `sep`. -/
def splitFirstAux (sep : List Char) : List Char → Option (List Char × List Char)
  | [] => none
  | c :: cs =>
    if sep.isPrefixOf (c :: cs) then some ([], (c :: cs).drop sep.length)
    else (splitFirstAux sep cs).map (fun p => (c :: p.1, p.2))

/-- The parsed components of a URL in the modelled fragment. -/
structure JsUrl where
  scheme : String
  host : String
  pathname : String
  deriving DecidableEq, Repr

/-- Does the character list `sub` occur inside `l`?  (JavaScript
`String.prototype.includes`.) -/
def containsSeq (sub : List Char) : List Char → Bool
  | [] => sub.isEmpty
  | c :: cs => sub.isPrefixOf (c :: cs) || containsSeq sub cs

/-- `new URL(s)` restricted to the modelled fragment; `none` plays the role
of the constructor throwing. -/
def parseUrl (s : String) : Option JsUrl :=
  match splitFirstAux [':', '/', '/'] s.data with
  | none => none
  | some (sch, rest) =>
    if sch = [] ∨ ¬ sch.all schemeChar then none
    else if rest.takeWhile hostChar = [] then none
    else if
        ¬ ((rest.dropWhile hostChar).takeWhile fun c => c ≠ '?' ∧ c ≠ '#').all pathChar then
      none
    else if
        rest.dropWhile hostChar ≠ [] ∧
          (rest.dropWhile hostChar).head? ∉ [some '/', some '?', some '#'] then
      none
    else
      some { scheme := String.mk (sch.map Char.toLower)
             host := String.mk ((rest.takeWhile hostChar).map Char.toLower)
             pathname :=
               if (rest.dropWhile hostChar).takeWhile (fun c => c ≠ '?' ∧ c ≠ '#') = [] then "/"
               else String.mk ((rest.dropWhile hostChar).takeWhile fun c => c ≠ '?' ∧ c ≠ '#') }

/-- `u.toString()` after the engine has cleared `u.hash` and `u.search`. -/
def urlHref (u : JsUrl) : String :=
  String.mk (u.scheme.data ++ [':', '/', '/'] ++ u.host.data ++ u.pathname.data)

/-- `u.hostname.includes('linkedin')`. -/
def hostIncludesLinkedin (u : JsUrl) : Bool :=
  containsSeq "linkedin".data u.host.data

/-- Does the string end with `'/'`? (JavaScript `normalized.endsWith('/')`.) -/
def endsWithSlash (s : String) : Bool :=
  s.data.getLast? = some '/'

/-- `normalized.slice(0, -1)`. -/
def dropLastChar (s : String) : String :=
  String.mk s.data.dropLast

/-- `normalizeLinkedInUrl` (line 319): canonicalize LinkedIn profile URLs by
clearing query and fragment and dropping one trailing slash; return the
trimmed input for non-LinkedIn or unparseable URLs and `''` for falsy
input. -/
def normalizeLinkedInUrl (url : String) : String :=
  if url = "" then ""
  else
    match parseUrl (jsTrim url) with
    | some u =>
      if hostIncludesLinkedin u then
        let normalized := urlHref u
        if endsWithSlash normalized then dropLastChar normalized else normalized
      else jsTrim url
    | none => jsTrim url

/-! ## Rows and the diff-and-patch reconciler -/

/-- A people row of the fixed fifteen-column schema that both extraction
flows normalize into (`extractLeadCore`, `buildPeopleRowFromCorrespondent`,
`peopleHeaders`).  Missing Source fields are already `''`. -/
structure PersonRow where
  first_name : String := ""
  last_name : String := ""
  full_name : String := ""
  job_title : String := ""
  company_name : String := ""
  company_domain : String := ""
  linkedin_url : String := ""
  heyreach_lead_id : String := ""
  lead_source : String := ""
  campaign_name : String := ""
  campaign_id : String := ""
  owner_email : String := ""
  lead_status : String := ""
  last_touch_at : String := ""
  last_reply_at : String := ""
  deriving DecidableEq, Repr

/-- The values `extractCurrentValues` (line 486) reads out of the Sink's
stored record: each is the latest attribute value or `null` when the
attribute is absent. -/
structure CurrentValues where
  full_name : Option String := none
  first_name : Option String := none
  last_name : Option String := none
  job_title : Option String := none
  company_name : Option String := none
  heyreach_lead_id : Option String := none
  deriving DecidableEq, Repr

/-- The value written for the `name` attribute when the name changed. -/
structure NameChange where
  full_name : String
  first_name : String
  last_name : String
  deriving DecidableEq, Repr

/-- The change set produced by `detectChanges` (line 513): a key is present
(`some`) exactly when the corresponding assignment in the source ran. -/
structure Changes where
  name : Option NameChange := none
  job_title_5 : Option String := none
  company_name : Option String := none
  heyreach_lead_id : Option String := none
  deriving DecidableEq, Repr

/-- The empty change set (`{}`). -/
def emptyChanges : Changes := {}

/-- `newRow.full_name || `${newFirst} ${newLast}`.trim()` — the candidate
name value `detectChanges` compares against the stored one. -/
def candidateFullName (newRow : PersonRow) : String :=
  if newRow.full_name ≠ "" then newRow.full_name
  else jsTrim (newRow.first_name ++ " " ++ newRow.last_name)

/-- `detectChanges(currentValues, newRow)` (lines 513–549). -/
def detectChanges (currentValues : CurrentValues) (newRow : PersonRow) : Changes :=
  let newFirst := newRow.first_name
  let newLast := newRow.last_name
  let newFull := candidateFullName newRow
  let currentFull := orEmpty currentValues.full_name
  let nameChange : Option NameChange :=
    if newFull ≠ "" ∧ newFull ≠ currentFull then
      some { full_name := newFull
             first_name := if newFirst ≠ "" then newFirst else (jsSplitWs newFull).headD ""
             last_name :=
               if newLast ≠ "" then newLast
               else String.intercalate " " ((jsSplitWs newFull).drop 1) }
    else none
  let jobChange : Option String :=
    if newRow.job_title ≠ "" ∧ currentValues.job_title ≠ some newRow.job_title then
      some newRow.job_title
    else none
  let companyChange : Option String :=
    if newRow.company_name ≠ "" ∧ currentValues.company_name ≠ some newRow.company_name then
      some newRow.company_name
    else none
  let heyreachChange : Option String :=
    if newRow.heyreach_lead_id ≠ "" ∧ ¬ truthy currentValues.heyreach_lead_id then
      some newRow.heyreach_lead_id
    else none
  { name := nameChange
    job_title_5 := jobChange
    company_name := companyChange
    heyreach_lead_id := heyreachChange }

/-- `Object.keys(changes).length === 0`. -/
def changesIsEmpty (c : Changes) : Bool :=
  c.name.isNone && c.job_title_5.isNone && c.company_name.isNone && c.heyreach_lead_id.isNone

/-- `Object.keys(changes)` in assignment order. -/
def changedFieldKeys (c : Changes) : List String :=
  (if c.name.isSome then ["name"] else []) ++
    (if c.job_title_5.isSome then ["job_title_5"] else []) ++
    (if c.company_name.isSome then ["company_name"] else []) ++
    (if c.heyreach_lead_id.isSome then ["heyreach_lead_id"] else [])

/-- Result object of `updatePersonFields` (lines 552–585). -/
structure UpdateResult where
  updated : Bool
  fields : List String := []
  error : Option String := none
  deriving DecidableEq, Repr

/-- `updatePersonFields(recordId, changes)`: first component is the returned
result object, second is the body of the PATCH request it issued (`none`
when it returned before issuing any request).  `patchOk` stands for the
PATCH coming back 2xx. -/
def updatePersonFields (patchOk : Bool) (changes : Changes) : UpdateResult × Option Changes :=
  if changesIsEmpty changes then ({ updated := false }, none)
  else if patchOk then ({ updated := true, fields := changedFieldKeys changes }, some changes)
  else ({ updated := false, error := some "Non-2xx status" }, some changes)

/-! ## The inbox (conversations) extraction flow of `main` (lines 939–1138) -/

/-- `conv.correspondentProfile` (the `|| {}` default is the all-empty
record; the camelCase/snake_case field coalescing is pre-applied). -/
structure Correspondent where
  profileUrl : String := ""
  firstName : String := ""
  lastName : String := ""
  position : String := ""
  headline : String := ""
  companyName : String := ""
  deriving DecidableEq, Repr

/-- One message of a conversation as returned by the inbox endpoint. -/
structure Msg where
  sender : String := ""
  createdAt : String := ""
  body : String := ""
  isInMail : Bool := false
  deriving DecidableEq, Repr

/-- One conversation item of an inbox page.  `id` and `lastMessageAt` are
the `conv.id || ''` / `conv.lastMessageAt || ''` coalesced values;
`accountEmail` is `conv.linkedInAccount.emailAddress || ''`. -/
structure Conv where
  id : String := ""
  lastMessageAt : String := ""
  correspondentProfile : Correspondent := {}
  campaignId : String := ""
  messages : List Msg := []
  totalMessages : Option Nat := none
  lastMessageText : String := ""
  lastMessageSender : String := ""
  accountEmail : String := ""
  deriving DecidableEq, Repr

/-- `buildPeopleRowFromCorrespondent` (line 413). -/
def buildPeopleRowFromCorrespondent (c : Correspondent) : PersonRow :=
  { first_name := c.firstName
    last_name := c.lastName
    full_name := jsTrim (c.firstName ++ " " ++ c.lastName)
    job_title := if c.position ≠ "" then c.position else c.headline
    company_name := c.companyName
    linkedin_url := normalizeLinkedInUrl c.profileUrl
    lead_source := "HeyReach" }

/-- The identity key of a conversation (lines 992–1001): the normalized
correspondent profile URL, or the synthetic
`https://www.linkedin.com/in/conversation-<convId>` fallback when the
correspondent has none. -/
def identityKey (conv : Conv) : String :=
  let liUrl := normalizeLinkedInUrl conv.correspondentProfile.profileUrl
  if liUrl = "" then "https://www.linkedin.com/in/conversation-" ++ conv.id
  else liUrl

/-- The person row pushed for a conversation (lines 1010–1018): the
correspondent row with the identity key and campaign enrichment applied. -/
def candidateRow (conv : Conv) : PersonRow :=
  { buildPeopleRowFromCorrespondent conv.correspondentProfile with
      linkedin_url := identityKey conv
      campaign_id := conv.campaignId
      campaign_name := if conv.campaignId ≠ "" then "Campaign " ++ conv.campaignId else ""
      owner_email := conv.accountEmail }

/-- A message row of the fixed ten-column message schema (the
`raw_json` column, a verbatim JSON echo of the message, is represented by
the message itself being recoverable from the row's other fields and is
omitted). -/
structure MsgRow where
  person_match_linkedin_url : String := ""
  lead_id : String := ""
  direction : String := ""
  channel : String := ""
  message_id : String := ""
  thread_id : String := ""
  campaign_id : String := ""
  timestamp : String := ""
  body : String := ""
  deriving DecidableEq, Repr

/-- The message row built inside the inbox loop (lines 1092–1108). -/
def inboxMessageRow (conv : Conv) (liUrl : String) (m : Msg) : MsgRow :=
  { person_match_linkedin_url := liUrl
    direction := if m.sender = "ME" then "sent" else if m.sender ≠ "" then "received" else ""
    channel := if m.isInMail then "inmail" else "dm"
    thread_id := conv.id
    campaign_id := conv.campaignId
    timestamp := m.createdAt
    body := m.body }

/-- The thread row built per conversation (lines 1059–1083); the
floating-point metrics `response_time_hours`/`response_rate` and the
clock-derived `conversation_stage` are outside the embedding. -/
structure ThreadRow where
  person_match_linkedin_url : String := ""
  lead_id : String := ""
  thread_id : String := ""
  campaign_id : String := ""
  first_message_at : String := ""
  last_message_at : String := ""
  total_messages : Nat := 0
  last_message_text : String := ""
  last_sender : String := ""
  last_direction : String := ""
  last_channel : String := ""
  message_count_sent : Nat := 0
  message_count_received : Nat := 0
  first_sent_at : Option String := none
  first_received_at : Option String := none
  last_sent_at : Option String := none
  last_received_at : Option String := none
  messages : List Msg := []
  deriving DecidableEq, Repr

/-- `msgs.reduce((min, m) => ..., conv.lastMessageAt || '')` (line 1050). -/
def firstMessageAt (msgs : List Msg) (init : String) : String :=
  msgs.foldl
    (fun mn m =>
      let t := m.createdAt
      if mn = "" ∨ (t ≠ "" ∧ charsLe t.data mn.data ∧ t ≠ mn) then t else mn)
    init

/-- The thread row of a conversation (lines 1059–1083). -/
def inboxThreadRow (conv : Conv) (liUrl : String) : ThreadRow :=
  let msgs := conv.messages
  let sentMessages := msgs.filter fun m => m.sender = "ME"
  let receivedMessages := msgs.filter fun m => m.sender ≠ "ME"
  let totalMessages := match conv.totalMessages with
    | some n => n
    | none => msgs.length
  let lastSender :=
    if conv.lastMessageSender ≠ "" then conv.lastMessageSender
    else match msgs.getLast? with
      | some m => m.sender
      | none => ""
  { person_match_linkedin_url := liUrl
    thread_id := conv.id
    campaign_id := conv.campaignId
    first_message_at := firstMessageAt msgs conv.lastMessageAt
    last_message_at := conv.lastMessageAt
    total_messages := totalMessages
    last_message_text := conv.lastMessageText
    last_sender := lastSender
    last_direction := if lastSender = "ME" then "sent" else if lastSender ≠ "" then "received" else ""
    last_channel :=
      match msgs.getLast? with
      | some m => if m.isInMail then "inmail" else "dm"
      | none => "dm"
    message_count_sent := sentMessages.length
    message_count_received := receivedMessages.length
    first_sent_at := sentMessages.head?.bind fun m => jsOrNull m.createdAt
    first_received_at := receivedMessages.head?.bind fun m => jsOrNull m.createdAt
    last_sent_at := sentMessages.getLast?.bind fun m => jsOrNull m.createdAt
    last_received_at := receivedMessages.getLast?.bind fun m => jsOrNull m.createdAt
    messages := msgs }

/-- One `syncState.threads[convId]` watermark entry (§ line 1087). -/
structure WmEntry where
  last_message_at : String := ""
  message_count : Nat := 0
  last_synced : String := ""
  deriving DecidableEq, Repr

/-- `isIncrementalSync = syncState.last_sync && !FORCE_INBOX` (line 933). -/
def isIncrementalSync (lastSync : Option String) (forceInbox : Bool) : Bool :=
  truthy lastSync && !forceInbox

/-- The watermark guard of the inbox loop (lines 984–989): skip the
conversation iff running incrementally, a watermark entry exists for its
id, and the stored `last_message_at` is `>=` the freshly observed one. -/
def threadSkipped (inc : Bool) (threads : List (String × WmEntry)) (conv : Conv) : Bool :=
  inc &&
    match threads.lookup conv.id with
    | some e => jsLe conv.lastMessageAt e.last_message_at
    | none => false

/-- `syncState.threads[convId] = { last_message_at, message_count, last_synced }`
(lines 1086–1091). -/
def updateThreads (threads : List (String × WmEntry)) (conv : Conv) (nowIso : String) :
    List (String × WmEntry) :=
  (conv.id,
    { last_message_at := conv.lastMessageAt
      message_count := match conv.totalMessages with
        | some n => n
        | none => conv.messages.length
      last_synced := nowIso }) :: threads

/-- The in-memory state of one inbox run: the accumulated rows, the
`peopleByUrl` seen-key set and the watermark map. -/
structure RunState where
  peopleRows : List PersonRow := []
  threadRows : List ThreadRow := []
  messageRows : List MsgRow := []
  seenUrls : List String := []
  threads : List (String × WmEntry) := []
  deriving DecidableEq, Repr

/-- Processing of one conversation inside the inbox loop (lines 979–1109):
watermark check, identity-key resolution, first-occurrence person
deduplication, thread row, message rows, watermark update. -/
def stepConv (inc : Bool) (nowIso : String) (st : RunState) (conv : Conv) : RunState :=
  if threadSkipped inc st.threads conv then st
  else
    let liUrl := identityKey conv
    let st1 :=
      if st.seenUrls.contains liUrl then st
      else
        { st with
            peopleRows := st.peopleRows ++ [candidateRow conv]
            seenUrls := liUrl :: st.seenUrls }
    { st1 with
        threadRows := st1.threadRows ++ [inboxThreadRow conv liUrl]
        messageRows := st1.messageRows ++ conv.messages.map (inboxMessageRow conv liUrl)
        threads := updateThreads st1.threads conv nowIso }

/-- A whole inbox extraction pass over a list of fetched conversations. -/
def runInbox (inc : Bool) (wm0 : List (String × WmEntry)) (nowIso : String)
    (convs : List Conv) : RunState :=
  convs.foldl (stepConv inc nowIso) { threads := wm0 }

/-- The conversations a run actually processes (those surviving the
watermark guard), threading the watermark updates exactly as the loop
does. -/
def procConvs (inc : Bool) (threads : List (String × WmEntry)) (nowIso : String) :
    List Conv → List Conv
  | [] => []
  | c :: cs =>
    if threadSkipped inc threads c then procConvs inc threads nowIso cs
    else c :: procConvs inc (updateThreads threads c nowIso) nowIso cs

/-- Specification-side first-occurrence-wins deduplication: keep a row iff
its key is not in `seen` and no earlier kept row claimed it. -/
def firstWinsFrom (seen : List String) : List PersonRow → List PersonRow
  | [] => []
  | r :: rs =>
    if seen.contains r.linkedin_url then firstWinsFrom seen rs
    else r :: firstWinsFrom (r.linkedin_url :: seen) rs

/-! ## Message uniqueness token and the Sink message store -/

/-- The uniqueness token computed for every message create
(line 783): `` `${thread.thread_id || ''}:${m.createdAt || ''}:${m.sender || ''}` ``. -/
def messageUid (thread : ThreadRow) (m : Msg) : String :=
  thread.thread_id ++ ":" ++ m.createdAt ++ ":" ++ m.sender

/-- Modelled from the spec: the Sink's stored message collection keyed by
the uniqueness token.  The Sink itself (Attio) is an external collaborator
not present in the repository; per spec § Data Model, "uniqueness token
must prevent duplicate insertion even across repeated runs", so an insert
whose token is already present stores nothing new. -/
def sinkInsertMessage (store : List (String × Msg)) (uid : String) (m : Msg) :
    List (String × Msg) :=
  if (store.map Prod.fst).contains uid then store else (uid, m) :: store

/-- Number of stored messages carrying a given uniqueness token. -/
def countToken (store : List (String × Msg)) (uid : String) : Nat :=
  (store.filter fun p => p.1 = uid).length

/-! ## Pagination -/

/-- The `{ totalCount, items }` result of `fetchInboxConversations`
(line 403): `totalCount` is `data.totalCount || data.count || 0`. -/
structure Page where
  totalCount : Nat := 0
  items : List Conv := []

/-- The paging loop of one inbox filter batch (lines 975–1114), with the
Source as an `offset ↦ page` oracle.  Returns the number of page requests
issued and the conversations fetched.  The loop increments `page` each
iteration and breaks once `page + 1 >= INBOX_MAX_PAGES`, so `maxPages + 1`
iterations always suffice; the first argument is that fuel. -/
def inboxLoopGo (oracle : Nat → Page) (maxPages : Nat) :
    Nat → Nat → Nat → Nat × List Conv
  | 0, _, _ => (0, [])
  | fuel + 1, page, offset =>
    let p := oracle offset
    if p.items.length = 0 then (1, [])
    else
      let newOffset := offset + p.items.length
      if p.totalCount ≤ newOffset then (1, p.items)
      else if maxPages ≤ page + 1 then (1, p.items)
      else
        let rest := inboxLoopGo oracle maxPages fuel (page + 1) newOffset
        (rest.1 + 1, p.items ++ rest.2)

/-- One inbox filter batch's extraction (lines 975–1114). -/
def inboxLoop (oracle : Nat → Page) (maxPages : Nat) : Nat × List Conv :=
  inboxLoopGo oracle maxPages (maxPages + 1) 0 0

/-- `INBOX_MAX_PAGES` defaults to `'1'` (line 66, "pilot: first page per
batch"). -/
def INBOX_MAX_PAGES_default : Nat := 1

/-- A raw lead as fetched by `fetchLeadsFromList`; only the identity fields
matter here, coalesced as in `extractLeadCore`. -/
structure Lead where
  leadId : String := ""
  linkedinProfileUrl : String := ""
  deriving DecidableEq, Repr

/-- One response of the leads endpoint: `items`, `nextCursor` (from the
`nextCursor || pagination.nextCursor || next || cursor` coalescing) and
`hasMore`. -/
structure LeadsResp where
  items : List Lead := []
  nextCursor : String := ""
  hasMore : Bool := false

/-- The paging loop of `fetchLeadsFromList` (lines 848–876), with the
Source as a `requestIndex ↦ response` oracle.  Continues while the
response carries a cursor, says `hasMore`, or returned exactly
`pageLimit` items; stops otherwise (hence on an empty or short page).
The loop has no page cap, so an explicit `fuel` bounds the recursion; it
is irrelevant as soon as it exceeds the number of requests the oracle
allows before a short page. -/
def fetchLeadsGo (oracle : Nat → LeadsResp) (pageLimit : Nat) :
    Nat → Nat → Nat × List Lead
  | 0, _ => (0, [])
  | fuel + 1, req =>
    let r := oracle req
    if r.nextCursor ≠ "" ∨ r.hasMore ∨ r.items.length = pageLimit then
      let rest := fetchLeadsGo oracle pageLimit fuel (req + 1)
      (rest.1 + 1, r.items ++ rest.2)
    else (1, r.items)

/-- `fetchLeadsFromList` (lines 848–876) with request fuel. -/
def fetchLeadsFromList (oracle : Nat → LeadsResp) (pageLimit fuel : Nat) : Nat × List Lead :=
  fetchLeadsGo oracle pageLimit fuel 0

/-! ## The per-lead conversation phase and run reports -/

/-- A raw message of `fetchConversationsForLead`, fields pre-coalesced as
in `extractMessageCore` (lines 367–384). -/
structure RawMsg where
  timestamp : String := ""
  body : String := ""
  direction : String := ""
  from_ : String := ""
  channel : String := ""
  messageId : String := ""
  threadId : String := ""
  campaignId : String := ""
  deriving DecidableEq, Repr

/-- `extractMessageCore(leadId, linkedinUrl, m)` (lines 367–384). -/
def extractMessageCore (leadId linkedinUrl : String) (m : RawMsg) : MsgRow :=
  { person_match_linkedin_url := linkedinUrl
    lead_id := leadId
    direction :=
      if m.direction ≠ "" then m.direction
      else if m.from_ = "me" then "sent"
      else if m.from_ = "lead" then "received"
      else ""
    channel := m.channel
    message_id := m.messageId
    thread_id := m.threadId
    campaign_id := m.campaignId
    timestamp := m.timestamp
    body := m.body }

/-- A structured error record pushed into the run report
(`{ stage, leadId, message }`, lines 1208 and 1271). -/
structure ErrRec where
  stage : String
  entityId : String
  message : String
  deriving DecidableEq, Repr

/-- The body of the per-lead conversation loop (lines 1256–1279) for one
lead: skip a lead without id or identity key; on a successful fetch append
its message rows; on a failed fetch append a structured error record
instead. -/
def convPhaseStep (fetch : String → Except String (List RawMsg))
    (acc : List MsgRow × List ErrRec) (lead : Lead) : List MsgRow × List ErrRec :=
  if lead.leadId = "" then acc
  else
    let liUrl := normalizeLinkedInUrl lead.linkedinProfileUrl
    if liUrl = "" then acc
    else
      match fetch lead.leadId with
      | .ok conv => (acc.1 ++ conv.map (extractMessageCore lead.leadId liUrl), acc.2)
      | .error e =>
        (acc.1, acc.2 ++ [{ stage := "fetchConversationsForLead", entityId := lead.leadId,
                            message := e }])

/-- The per-lead conversation phase (lines 1256–1279): for each lead,
fetch its conversation and turn the messages into rows; a fetch failure
pushes a structured error record and skips only that lead.  The Source is
a `leadId ↦ result` oracle; `Except.error` plays the promise rejection. -/
def convPhase (fetch : String → Except String (List RawMsg)) (leads : List Lead) :
    List MsgRow × List ErrRec :=
  leads.foldl (convPhaseStep fetch) ([], [])

/-- The message rows one lead contributes (empty when it is skipped for a
missing id or identity key, or when its fetch failed). -/
def leadConvRows (fetch : String → Except String (List RawMsg)) (lead : Lead) : List MsgRow :=
  if lead.leadId = "" then []
  else
    let liUrl := normalizeLinkedInUrl lead.linkedinProfileUrl
    if liUrl = "" then []
    else
      match fetch lead.leadId with
      | .ok conv => conv.map (extractMessageCore lead.leadId liUrl)
      | .error _ => []

/-- The error record one lead contributes (present exactly when its fetch
failed). -/
def leadConvErr (fetch : String → Except String (List RawMsg)) (lead : Lead) : Option ErrRec :=
  if lead.leadId = "" then none
  else if normalizeLinkedInUrl lead.linkedinProfileUrl = "" then none
  else
    match fetch lead.leadId with
    | .ok _ => none
    | .error e =>
      some { stage := "fetchConversationsForLead", entityId := lead.leadId, message := e }

/-- The inner merge of one fetched lead batch into `uniqueLeadsById`
(lines 1202–1206): leads without an id are dropped and the first
occurrence of an id wins. -/
def mergeLeads (m : List (String × Lead)) (leads : List Lead) : List (String × Lead) :=
  leads.foldl
    (fun m2 lead =>
      if lead.leadId = "" then m2
      else if (m2.map Prod.fst).contains lead.leadId then m2
      else m2 ++ [(lead.leadId, lead)])
    m

/-- One iteration of the lead-fetch loop over `LIST_IDS`
(lines 1196–1211): a failing list fetch pushes a structured
`{stage, listId, message}` record into the run's error list and the loop
continues with the next list; a successful fetch merges its leads.  (The
no-list-ids branch at lines 1212–1226 is the same with a single fetch and
stage `fetchLeads`.)  The Source is a `listId ↦ result` oracle. -/
def leadFetchStep (fetchList : String → Except String (List Lead))
    (acc : List (String × Lead) × List ErrRec) (listId : String) :
    List (String × Lead) × List ErrRec :=
  match fetchList listId with
  | .ok leads => (mergeLeads acc.1 leads, acc.2)
  | .error e =>
    (acc.1, acc.2 ++ [{ stage := "fetchLeadsFromList", entityId := listId, message := e }])

/-- The whole lead-fetch phase over the configured list ids. -/
def leadFetchPhase (fetchList : String → Except String (List Lead)) (listIds : List String) :
    List (String × Lead) × List ErrRec :=
  listIds.foldl (leadFetchStep fetchList) ([], [])

/-- The leads one list contributes (`none` when its fetch failed). -/
def listFetchLeads (fetchList : String → Except String (List Lead)) (listId : String) :
    Option (List Lead) :=
  match fetchList listId with
  | .ok leads => some leads
  | .error _ => none

/-- The error record one list contributes (present exactly when its fetch
failed). -/
def listFetchErr (fetchList : String → Except String (List Lead)) (listId : String) :
    Option ErrRec :=
  match fetchList listId with
  | .ok _ => none
  | .error e => some { stage := "fetchLeadsFromList", entityId := listId, message := e }

/-- `findPersonByLinkedInUrl` (lines 438–483): an empty key or a cache hit
never reaches the network; otherwise the Sink is queried, and a query
failure is caught inside the function (only console-warned) and `null` is
returned, which sends the caller down the create path.  The query oracle
returns `ok none` for a 2xx-without-match or non-2xx response (both fall
through to `null` in the source) and the record is collapsed to its
extracted current values; the cache-write side effect is not modelled. -/
def findPersonByLinkedInUrl
    (cache : List (String × (String × CurrentValues)))
    (query : String → Except String (Option (String × CurrentValues)))
    (linkedinUrl : String) : Option (String × CurrentValues) :=
  if linkedinUrl = "" then none
  else
    match cache.lookup linkedinUrl with
    | some cached => some cached
    | none =>
      match query linkedinUrl with
      | .ok found => found
      | .error _ => none

/-- The run report of the inbox flow (lines 1174–1181): its `errors` and
`skippedPeople` lists are the literal `[]` of the source. -/
structure InboxReport where
  peopleRows : Nat
  messageRows : Nat
  threadRows : Nat
  skippedPeople : List ErrRec
  errors : List ErrRec
  deriving DecidableEq, Repr

/-- `report` object of the inbox flow (lines 1174–1181). -/
def mkInboxReport (peopleCount messageCount threadCount : Nat) : InboxReport :=
  { peopleRows := peopleCount
    messageRows := messageCount
    threadRows := threadCount
    skippedPeople := []
    errors := [] }

/-- The run report of the per-lead flow (lines 1297–1313): it carries the
accumulated structured error records. -/
structure LeadFlowReport where
  uniqueLeads : Nat
  peopleRows : Nat
  peopleSkipped : Nat
  messageRows : Nat
  errors : List ErrRec
  deriving DecidableEq, Repr

/-- `report` object of the per-lead flow (lines 1297–1313). -/
def mkLeadFlowReport (uniqueLeads peopleCount skippedCount messageCount : Nat)
    (errors : List ErrRec) : LeadFlowReport :=
  { uniqueLeads := uniqueLeads
    peopleRows := peopleCount
    peopleSkipped := skippedCount
    messageRows := messageCount
    errors := errors }

/-- The existing-person branch of the single-record people upsert
(lines 624–649): query found the person, so the engine diffs and patches;
any patch failure is caught inside `updatePersonFields` and only warned
about. -/
def upsertExistingPerson (patchOk : Bool) (currentValues : CurrentValues) (row : PersonRow) :
    UpdateResult × Option Changes :=
  updatePersonFields patchOk (detectChanges currentValues row)

/-! ## Helper lemmas on the reconciler -/

theorem detectChanges_name (cv : CurrentValues) (row : PersonRow) :
    (detectChanges cv row).name =
      if candidateFullName row ≠ "" ∧ candidateFullName row ≠ orEmpty cv.full_name then
        some { full_name := candidateFullName row
               first_name :=
                 if row.first_name ≠ "" then row.first_name
                 else (jsSplitWs (candidateFullName row)).headD ""
               last_name :=
                 if row.last_name ≠ "" then row.last_name
                 else String.intercalate " " ((jsSplitWs (candidateFullName row)).drop 1) }
      else none := rfl

theorem detectChanges_job (cv : CurrentValues) (row : PersonRow) :
    (detectChanges cv row).job_title_5 =
      if row.job_title ≠ "" ∧ cv.job_title ≠ some row.job_title then some row.job_title
      else none := rfl

theorem detectChanges_company (cv : CurrentValues) (row : PersonRow) :
    (detectChanges cv row).company_name =
      if row.company_name ≠ "" ∧ cv.company_name ≠ some row.company_name then
        some row.company_name
      else none := rfl

theorem detectChanges_heyreach (cv : CurrentValues) (row : PersonRow) :
    (detectChanges cv row).heyreach_lead_id =
      if row.heyreach_lead_id ≠ "" ∧ ¬ truthy cv.heyreach_lead_id then
        some row.heyreach_lead_id
      else none := rfl

/-- Two change sets are equal once all four keys agree. -/
theorem Changes.ext_keys {a b : Changes} (hn : a.name = b.name)
    (hj : a.job_title_5 = b.job_title_5) (hc : a.company_name = b.company_name)
    (hh : a.heyreach_lead_id = b.heyreach_lead_id) : a = b := by
  cases a
  cases b
  simp_all

/-! ## C1 — idempotent reconciliation -/

/-- C1: when the candidate name, job title, company name and first-seen
lead id all equal the values already stored in the Sink record,
`detectChanges` returns the empty change set and `updatePersonFields`
returns `{ updated: false }` without issuing any PATCH request — hence a
second run over an unchanged Source snapshot produces zero `updated`
mutations. -/
theorem reconcile_idempotent (cv : CurrentValues) (row : PersonRow) (patchOk : Bool)
    (hname : candidateFullName row = orEmpty cv.full_name)
    (hjob : row.job_title = orEmpty cv.job_title)
    (hcompany : row.company_name = orEmpty cv.company_name)
    (hlead : row.heyreach_lead_id = orEmpty cv.heyreach_lead_id) :
    detectChanges cv row = emptyChanges ∧
      updatePersonFields patchOk (detectChanges cv row) = ({ updated := false }, none) := by
  have hchanges : detectChanges cv row = emptyChanges := by
    apply Changes.ext_keys
    · have hno : ¬ (candidateFullName row ≠ "" ∧ candidateFullName row ≠ orEmpty cv.full_name) := by
        rintro ⟨-, h2⟩
        exact h2 hname
      rw [detectChanges_name, if_neg hno]
      rfl
    · have hno : ¬ (row.job_title ≠ "" ∧ cv.job_title ≠ some row.job_title) := by
        rintro ⟨h1, h2⟩
        apply h2
        cases hj : cv.job_title with
        | none =>
          rw [hj] at hjob
          exact absurd hjob h1
        | some s =>
          rw [hj] at hjob
          rw [show orEmpty (some s) = s from rfl] at hjob
          rw [hjob]
      rw [detectChanges_job, if_neg hno]
      rfl
    · have hno : ¬ (row.company_name ≠ "" ∧ cv.company_name ≠ some row.company_name) := by
        rintro ⟨h1, h2⟩
        apply h2
        cases hc : cv.company_name with
        | none =>
          rw [hc] at hcompany
          exact absurd hcompany h1
        | some s =>
          rw [hc] at hcompany
          rw [show orEmpty (some s) = s from rfl] at hcompany
          rw [hcompany]
      rw [detectChanges_company, if_neg hno]
      rfl
    · have hno : ¬ (row.heyreach_lead_id ≠ "" ∧ ¬ truthy cv.heyreach_lead_id) := by
        rintro ⟨h1, h2⟩
        apply h2
        cases hh : cv.heyreach_lead_id with
        | none =>
          rw [hh] at hlead
          exact absurd hlead h1
        | some s =>
          rw [hh] at hlead
          rw [show orEmpty (some s) = s from rfl] at hlead
          subst hlead
          simp only [truthy]
          exact decide_eq_true h1
      rw [detectChanges_heyreach, if_neg hno]
      rfl
  refine ⟨hchanges, ?_⟩
  rw [hchanges]
  rfl

/-- Witness for C1 at a fully populated concrete record. -/
theorem reconcile_idempotent_witness :
    detectChanges
        { full_name := some "Jane Doe", first_name := some "Jane", last_name := some "Doe",
          job_title := some "Engineer", company_name := some "Acme",
          heyreach_lead_id := some "42" }
        { first_name := "Jane", last_name := "Doe", full_name := "Jane Doe",
          job_title := "Engineer", company_name := "Acme", heyreach_lead_id := "42" } =
      emptyChanges :=
  (reconcile_idempotent _ _ true (by decide) (by decide) (by decide) (by decide)).1

/-! ## C3 — diff minimality (corrected: the first-seen lead id is compared
against emptiness of the stored value, not against inequality) -/

/-- The stored values of the C3 counterexample: the Sink already holds a
first-seen lead id. -/
def c3StoredValues : CurrentValues := { heyreach_lead_id := some "hr-1" }

/-- The candidate row of the C3 counterexample: a non-empty lead id that
differs from the stored one. -/
def c3FreshRow : PersonRow := { heyreach_lead_id := "hr-2" }

/-- C3 as frozen is false: the candidate `heyreach_lead_id` is non-empty
and differs from the stored value, yet `detectChanges` puts no
`heyreach_lead_id` key into the change set. -/
theorem diff_minimality_counterexample :
    c3FreshRow.heyreach_lead_id ≠ "" ∧
      some c3FreshRow.heyreach_lead_id ≠ c3StoredValues.heyreach_lead_id ∧
      (detectChanges c3StoredValues c3FreshRow).heyreach_lead_id = none := by
  refine ⟨by decide, by decide, ?_⟩
  rfl

/-- C3 amended: the change set contains, among name, job title and company
name, exactly the fields whose candidate value is non-empty and differs
from the stored value; it contains the first-seen lead id exactly when the
candidate is non-empty and the stored value is empty; the PATCH body is
either absent or exactly the change set; and on the spec's own instance
(stored title `Engineer`, fresh title `Engineer` and company `Acme`) the
patch contains only the company field. -/
theorem diff_minimality_amended (cv : CurrentValues) (row : PersonRow) (patchOk : Bool) :
    ((detectChanges cv row).name.isSome ↔
        candidateFullName row ≠ "" ∧ candidateFullName row ≠ orEmpty cv.full_name) ∧
      ((detectChanges cv row).job_title_5.isSome ↔
        row.job_title ≠ "" ∧ cv.job_title ≠ some row.job_title) ∧
      ((detectChanges cv row).company_name.isSome ↔
        row.company_name ≠ "" ∧ cv.company_name ≠ some row.company_name) ∧
      ((detectChanges cv row).heyreach_lead_id.isSome ↔
        row.heyreach_lead_id ≠ "" ∧ ¬ truthy cv.heyreach_lead_id) ∧
      (updatePersonFields patchOk (detectChanges cv row)).2 ∈
        ([none, some (detectChanges cv row)] : List (Option Changes)) ∧
      detectChanges { job_title := some "Engineer" }
          { job_title := "Engineer", company_name := "Acme" } =
        { company_name := some "Acme" } := by
  refine ⟨?_, ?_, ?_, ?_, ?_, by rfl⟩
  · rw [detectChanges_name]
    split
    next h => simpa using h
    next h => simpa using h
  · rw [detectChanges_job]
    split
    next h => simpa using h
    next h => simpa using h
  · rw [detectChanges_company]
    split
    next h => simpa using h
    next h => simpa using h
  · rw [detectChanges_heyreach]
    split
    next h => simpa using h
    next h => simpa using h
  · unfold updatePersonFields
    split
    · simp
    · split <;> simp

/-! ## C5 — the first-seen external id is write-once -/

/-- C5: the change set carries `heyreach_lead_id` exactly when the
candidate value is non-empty and the stored value is empty; in particular
a stored non-empty `heyreach_lead_id` is never part of any patch. -/
theorem firstSeen_leadId_writeOnce (cv : CurrentValues) (row : PersonRow) :
    ((detectChanges cv row).heyreach_lead_id.isSome ↔
        row.heyreach_lead_id ≠ "" ∧ ¬ truthy cv.heyreach_lead_id) ∧
      (truthy cv.heyreach_lead_id = true → (detectChanges cv row).heyreach_lead_id = none) := by
  constructor
  · rw [detectChanges_heyreach]
    split
    next h => simpa using h
    next h => simpa using h
  · intro htr
    have hno : ¬ (row.heyreach_lead_id ≠ "" ∧ ¬ truthy cv.heyreach_lead_id) := by
      rintro ⟨-, h2⟩
      exact h2 htr
    rw [detectChanges_heyreach, if_neg hno]

/-- Witness for C5: a stored id `keep` survives a differing candidate. -/
theorem firstSeen_leadId_writeOnce_witness :
    (detectChanges { heyreach_lead_id := some "keep" }
        { heyreach_lead_id := "new" }).heyreach_lead_id = none :=
  (firstSeen_leadId_writeOnce _ _).2 (by decide)

/-! ## C8 — deterministic fallback identity key -/

/-- C8: a conversation whose correspondent has no usable profile URL gets
the synthetic identity key `https://www.linkedin.com/in/conversation-` ++
thread id, and any later re-extraction of the same raw entity (same
profile URL, same conversation id) resolves to the same key. -/
theorem fallback_identity_key (conv : Conv)
    (h : normalizeLinkedInUrl conv.correspondentProfile.profileUrl = "") :
    identityKey conv = "https://www.linkedin.com/in/conversation-" ++ conv.id ∧
      ∀ conv2 : Conv,
        conv2.correspondentProfile.profileUrl = conv.correspondentProfile.profileUrl →
        conv2.id = conv.id → identityKey conv2 = identityKey conv := by
  constructor
  · unfold identityKey
    rw [h]
    rfl
  · intro conv2 hurl hid
    unfold identityKey
    rw [hurl, hid]

/-- Witness for C8 at thread id `t-42`. -/
theorem fallback_identity_key_witness :
    identityKey { id := "t-42" } = "https://www.linkedin.com/in/conversation-t-42" :=
  ((fallback_identity_key { id := "t-42" } (by rfl)).1).trans (by rfl)

/-! ## C4 — message uniqueness token -/

/-- C4: the uniqueness token is a function of (thread id, timestamp,
sender) only, so two runs extracting the same raw message compute the same
token, and inserting the message twice into the token-keyed Sink store
leaves exactly one stored message for that token.  (The Sink-side
uniqueness enforcement is modelled from the spec; see
`sinkInsertMessage`.) -/
theorem message_uid_unique (t1 t2 : ThreadRow) (m1 m2 : Msg)
    (hth : t1.thread_id = t2.thread_id) (hts : m1.createdAt = m2.createdAt)
    (hsd : m1.sender = m2.sender) :
    messageUid t1 m1 = messageUid t2 m2 ∧
      countToken
          (sinkInsertMessage (sinkInsertMessage [] (messageUid t1 m1) m1) (messageUid t2 m2) m2)
          (messageUid t1 m1) = 1 := by
  have he : messageUid t1 m1 = messageUid t2 m2 := by
    unfold messageUid
    rw [hth, hts, hsd]
  refine ⟨he, ?_⟩
  rw [← he]
  simp [sinkInsertMessage, countToken]

/-- Witness for C4 at a concrete overlapping-window message. -/
theorem message_uid_unique_witness :
    countToken
        (sinkInsertMessage
          (sinkInsertMessage []
            (messageUid { thread_id := "t-1" } { createdAt := "2024-01-01", sender := "ME" })
            { createdAt := "2024-01-01", sender := "ME" })
          (messageUid { thread_id := "t-1" } { createdAt := "2024-01-01", sender := "ME" })
          { createdAt := "2024-01-01", sender := "ME" })
        (messageUid { thread_id := "t-1" } { createdAt := "2024-01-01", sender := "ME" }) = 1 :=
  (message_uid_unique { thread_id := "t-1" } { thread_id := "t-1" }
      { createdAt := "2024-01-01", sender := "ME" } { createdAt := "2024-01-01", sender := "ME" }
      rfl rfl rfl).2

/-! ## C2 — watermark skip -/

/-- A skipped conversation leaves the run state untouched. -/
theorem stepConv_skip (inc : Bool) (nowIso : String) (st : RunState) (conv : Conv)
    (h : threadSkipped inc st.threads conv = true) : stepConv inc nowIso st conv = st := by
  unfold stepConv
  rw [if_pos h]

/-- A processed conversation always appends its thread row. -/
theorem stepConv_threadRows (inc : Bool) (nowIso : String) (st : RunState) (conv : Conv)
    (h : threadSkipped inc st.threads conv = false) :
    (stepConv inc nowIso st conv).threadRows =
      st.threadRows ++ [inboxThreadRow conv (identityKey conv)] := by
  unfold stepConv
  rw [if_neg (by simp [h])]
  by_cases hseen : st.seenUrls.contains (identityKey conv)
  · simp only [if_pos hseen]
  · simp only [if_neg hseen]

/-- C2: under incremental mode (a prior global `last_sync` exists and the
force-full-resync flag is not set), a conversation contributes no person
row, no thread row and no message row (it is skipped entirely) iff a prior
watermark entry exists for its thread id whose stored `last_message_at` is
`>=` the freshly observed `lastMessageAt`; strict increase is required to
process. -/
theorem watermark_skip_iff (lastSync : Option String) (forceInbox : Bool) (nowIso : String)
    (st : RunState) (conv : Conv) (hinc : isIncrementalSync lastSync forceInbox = true) :
    (((stepConv (isIncrementalSync lastSync forceInbox) nowIso st conv).peopleRows =
          st.peopleRows ∧
        (stepConv (isIncrementalSync lastSync forceInbox) nowIso st conv).threadRows =
          st.threadRows ∧
        (stepConv (isIncrementalSync lastSync forceInbox) nowIso st conv).messageRows =
          st.messageRows)) ↔
      ∃ e, st.threads.lookup conv.id = some e ∧
        jsLe conv.lastMessageAt e.last_message_at = true := by
  rw [hinc]
  by_cases hb : threadSkipped true st.threads conv
  · constructor
    · intro _
      unfold threadSkipped at hb
      simp only [Bool.true_and] at hb
      cases hl : st.threads.lookup conv.id with
      | none =>
        rw [hl] at hb
        exact absurd hb (by simp)
      | some e =>
        rw [hl] at hb
        exact ⟨e, rfl, hb⟩
    · intro _
      rw [stepConv_skip true nowIso st conv hb]
      exact ⟨rfl, rfl, rfl⟩
  · have hb' : threadSkipped true st.threads conv = false := by
      simpa using hb
    constructor
    · intro hrows
      exfalso
      have ht := stepConv_threadRows true nowIso st conv hb'
      rw [ht] at hrows
      have hlen := congrArg List.length hrows.2.1
      simp at hlen
    · rintro ⟨e, hl, hle⟩
      exfalso
      apply hb
      unfold threadSkipped
      simp only [Bool.true_and]
      rw [hl]
      exact hle

/-- Watermark entry of the C2 witness: activity already recorded at a
later timestamp. -/
def c2Entry : WmEntry := { last_message_at := "2024-06-02T00:00:00Z" }

/-- Prior run state of the C2 witness. -/
def c2State : RunState := { threads := [("c1", c2Entry)] }

/-- A conversation whose fresh activity is not newer than the watermark. -/
def c2Conv : Conv := { id := "c1", lastMessageAt := "2024-06-01T00:00:00Z" }

/-- Witness for C2: the stale conversation is skipped entirely under a
prior `last_sync` with the force flag unset. -/
theorem watermark_skip_iff_witness :
    (stepConv true "2024-06-03T00:00:00Z" c2State c2Conv).peopleRows = c2State.peopleRows ∧
      (stepConv true "2024-06-03T00:00:00Z" c2State c2Conv).threadRows = c2State.threadRows ∧
      (stepConv true "2024-06-03T00:00:00Z" c2State c2Conv).messageRows =
        c2State.messageRows :=
  (watermark_skip_iff (some "2024-06-01T12:00:00Z") false "2024-06-03T00:00:00Z" c2State c2Conv
      (by decide)).mpr
    ⟨c2Entry, by decide, by decide⟩

/-! ## C7 — in-run deduplication, first occurrence wins -/

/-- The person row pushed for a conversation carries its identity key. -/
theorem candidateRow_linkedin_url (conv : Conv) :
    (candidateRow conv).linkedin_url = identityKey conv := rfl

/-- Unfolding lemma for `firstWinsFrom` on a cons. -/
theorem firstWinsFrom_cons (seen : List String) (r : PersonRow) (rs : List PersonRow) :
    firstWinsFrom seen (r :: rs) =
      if seen.contains r.linkedin_url then firstWinsFrom seen rs
      else r :: firstWinsFrom (r.linkedin_url :: seen) rs := rfl

/-- Generalized invariant: folding the inbox loop over any state appends
exactly the first-wins deduplication (relative to the already-seen keys)
of the person rows of the conversations that survive the watermark. -/
theorem runInbox_people_aux (inc : Bool) (nowIso : String) (convs : List Conv) :
    ∀ st : RunState,
      (convs.foldl (stepConv inc nowIso) st).peopleRows =
        st.peopleRows ++
          firstWinsFrom st.seenUrls ((procConvs inc st.threads nowIso convs).map candidateRow) := by
  induction convs with
  | nil =>
    intro st
    simp [procConvs, firstWinsFrom]
  | cons c cs ih =>
    intro st
    by_cases hb : threadSkipped inc st.threads c
    · rw [List.foldl_cons, stepConv_skip inc nowIso st c hb]
      unfold procConvs
      rw [if_pos hb]
      exact ih st
    · have hb' : threadSkipped inc st.threads c = false := by simpa using hb
      rw [List.foldl_cons]
      unfold procConvs
      rw [if_neg hb]
      by_cases hseen : st.seenUrls.contains (identityKey c)
      · have hmem : identityKey c ∈ st.seenUrls := by simpa using hseen
        have hp : (stepConv inc nowIso st c).peopleRows = st.peopleRows := by
          simp [stepConv, hb', hmem]
        have hs : (stepConv inc nowIso st c).seenUrls = st.seenUrls := by
          simp [stepConv, hb', hmem]
        have hth : (stepConv inc nowIso st c).threads = updateThreads st.threads c nowIso := by
          simp [stepConv, hb', hmem]
        have hfw : firstWinsFrom st.seenUrls
              (candidateRow c ::
                (procConvs inc (updateThreads st.threads c nowIso) nowIso cs).map candidateRow) =
            firstWinsFrom st.seenUrls
              ((procConvs inc (updateThreads st.threads c nowIso) nowIso cs).map candidateRow) := by
          rw [firstWinsFrom_cons, candidateRow_linkedin_url, if_pos hseen]
        rw [ih, hp, hs, hth, List.map_cons, hfw]
      · have hseen' : st.seenUrls.contains (identityKey c) = false := by simpa using hseen
        have hmem : identityKey c ∉ st.seenUrls := by simpa using hseen
        have hp : (stepConv inc nowIso st c).peopleRows =
            st.peopleRows ++ [candidateRow c] := by
          simp [stepConv, hb', hmem]
        have hs : (stepConv inc nowIso st c).seenUrls = identityKey c :: st.seenUrls := by
          simp [stepConv, hb', hmem]
        have hth : (stepConv inc nowIso st c).threads = updateThreads st.threads c nowIso := by
          simp [stepConv, hb', hmem]
        have hfw : firstWinsFrom st.seenUrls
              (candidateRow c ::
                (procConvs inc (updateThreads st.threads c nowIso) nowIso cs).map candidateRow) =
            candidateRow c ::
              firstWinsFrom (identityKey c :: st.seenUrls)
                ((procConvs inc (updateThreads st.threads c nowIso) nowIso cs).map candidateRow) := by
          rw [firstWinsFrom_cons, candidateRow_linkedin_url, if_neg hseen]
        rw [ih, hp, hs, hth, List.map_cons, hfw]
        simp

/-- First-wins deduplication yields pairwise distinct keys, none of which
was already seen. -/
theorem firstWinsFrom_nodup (l : List PersonRow) :
    ∀ seen : List String,
      ((firstWinsFrom seen l).map PersonRow.linkedin_url).Nodup ∧
        ∀ k ∈ (firstWinsFrom seen l).map PersonRow.linkedin_url, seen.contains k = false := by
  induction l with
  | nil =>
    intro seen
    simp [firstWinsFrom]
  | cons r rs ih =>
    intro seen
    by_cases hseen : seen.contains r.linkedin_url
    · unfold firstWinsFrom
      rw [if_pos hseen]
      exact ih seen
    · have hseen' : seen.contains r.linkedin_url = false := by simpa using hseen
      unfold firstWinsFrom
      rw [if_neg hseen]
      obtain ⟨hnd, hfresh⟩ := ih (r.linkedin_url :: seen)
      constructor
      · simp only [List.map_cons, List.nodup_cons]
        refine ⟨?_, hnd⟩
        intro hmem
        have := hfresh _ hmem
        simp at this
      · intro k hk
        simp only [List.map_cons, List.mem_cons] at hk
        cases hk with
        | inl h =>
          rw [h]
          exact hseen'
        | inr h =>
          have hthis := hfresh _ h
          simp at hthis
          simpa using hthis.2

/-- C7: over any run, every identity key yields at most one person row
(the emitted keys are pairwise distinct), and the rows kept are exactly
the first-wins deduplication of the rows of the processed conversations —
the later occurrence of a key is discarded and the row built from its
first occurrence survives.  No Sink query enters the computation. -/
theorem inrun_dedup_first_wins (inc : Bool) (wm0 : List (String × WmEntry)) (nowIso : String)
    (convs : List Conv) :
    (runInbox inc wm0 nowIso convs).peopleRows =
        firstWinsFrom [] ((procConvs inc wm0 nowIso convs).map candidateRow) ∧
      ((runInbox inc wm0 nowIso convs).peopleRows.map PersonRow.linkedin_url).Nodup := by
  have h := runInbox_people_aux inc nowIso convs { threads := wm0 }
  constructor
  · simpa [runInbox] using h
  · rw [show (runInbox inc wm0 nowIso convs).peopleRows =
        firstWinsFrom [] ((procConvs inc wm0 nowIso convs).map candidateRow) by
          simpa [runInbox] using h]
    exact (firstWinsFrom_nodup _ []).1

/-! ## C6 — pagination termination -/

/-- The inbox Source of the pagination scenario: total 237, pages of
100/100/37 at offsets 0/100/200. -/
def c6InboxOracle (offset : Nat) : Page :=
  if offset = 0 then { totalCount := 237, items := List.replicate 100 {} }
  else if offset = 100 then { totalCount := 237, items := List.replicate 100 {} }
  else if offset = 200 then { totalCount := 237, items := List.replicate 37 {} }
  else { totalCount := 237, items := [] }

/-- An inbox Source that reports no explicit total (`totalCount` falsy,
hence `0`) while returning full pages. -/
def c6NoTotalOracle (_ : Nat) : Page :=
  { totalCount := 0, items := List.replicate 100 {} }

/-- The leads Source of the pagination scenario: requests return 100, 100
and then 37 leads, with no cursor and no `hasMore`. -/
def c6LeadsOracle (req : Nat) : LeadsResp :=
  if req = 0 then { items := List.replicate 100 {} }
  else if req = 1 then { items := List.replicate 100 {} }
  else { items := List.replicate 37 {} }

/-- C6 as frozen is false on the code: with the source's default page cap
(`INBOX_MAX_PAGES = 1`), the inbox extractor issues exactly one page
request and yields 100 conversations on the 100/100/37 scenario — not 3
requests and 237 entities. -/
theorem pagination_termination_counterexample :
    (inboxLoop c6InboxOracle INBOX_MAX_PAGES_default).1 = 1 ∧
      (inboxLoop c6InboxOracle INBOX_MAX_PAGES_default).2.length = 100 ∧
      ¬ ((inboxLoop c6InboxOracle INBOX_MAX_PAGES_default).1 = 3 ∧
          (inboxLoop c6InboxOracle INBOX_MAX_PAGES_default).2.length = 237) := by
  refine ⟨by decide, by decide, ?_⟩
  rintro ⟨h, -⟩
  revert h
  decide

set_option maxRecDepth 8000 in
/-- C6 amended: the inbox extractor stops on an empty page, or once the
running offset reaches the returned total, or when the `INBOX_MAX_PAGES`
cap is hit; with the cap at least 3 and an explicit total of 237 the
100/100/37 scenario takes exactly 3 page requests and yields 237
conversations.  When no explicit total is returned (`totalCount` falsy,
read as 0), the inbox loop stops after the first page even when it was
full.  The per-lead paginator, which has no cap, stops exactly when a
page carries no cursor, no `hasMore` and fewer items than the page size,
and on the same scenario issues exactly 3 requests for 237 leads. -/
theorem pagination_termination_amended :
    ((inboxLoop c6InboxOracle 3).1 = 3 ∧ (inboxLoop c6InboxOracle 3).2.length = 237) ∧
      ((fetchLeadsFromList c6LeadsOracle 100 10).1 = 3 ∧
        (fetchLeadsFromList c6LeadsOracle 100 10).2.length = 237) ∧
      (∀ maxPages : Nat, (inboxLoop c6NoTotalOracle maxPages).1 = 1) ∧
      (∀ oracle : Nat → Page, ∀ maxPages offset fuel page : Nat,
        (oracle offset).items.length = 0 →
          inboxLoopGo oracle maxPages (fuel + 1) page offset = (1, [])) := by
  refine ⟨⟨by decide, by decide⟩, ⟨by decide, by decide⟩, ?_, ?_⟩
  · intro maxPages
    simp [inboxLoop, inboxLoopGo, c6NoTotalOracle]
  · intro oracle maxPages offset fuel page hempty
    simp [inboxLoopGo, hempty]

/-- Witness for the amended C6 at a Source whose very first page is
empty: one request, zero entities. -/
theorem pagination_termination_amended_witness :
    inboxLoopGo (fun _ => { totalCount := 5, items := [] }) 7 4 0 0 = (1, []) :=
  (pagination_termination_amended).2.2.2 (fun _ => { totalCount := 5, items := [] }) 7 0 3 0 rfl

/-! ## C9 — per-entity failure isolation and reporting -/

/-- Unfolding the body of the per-lead conversation fold for one lead. -/
theorem convPhaseStep_eq (fetch : String → Except String (List RawMsg)) (lead : Lead)
    (acc : List MsgRow × List ErrRec) :
    convPhaseStep fetch acc lead =
      (acc.1 ++ leadConvRows fetch lead, acc.2 ++ (leadConvErr fetch lead).toList) := by
  unfold convPhaseStep leadConvRows leadConvErr
  by_cases hid : lead.leadId = ""
  · simp [hid]
  · by_cases hli : normalizeLinkedInUrl lead.linkedinProfileUrl = ""
    · simp [hid, hli]
    · cases hf : fetch lead.leadId with
      | ok conv => simp [hid, hli, hf]
      | error e => simp [hid, hli, hf]

/-- The conversation fold splits per lead. -/
theorem convPhase_eq (fetch : String → Except String (List RawMsg)) (leads : List Lead) :
    ∀ acc : List MsgRow × List ErrRec,
      leads.foldl (convPhaseStep fetch) acc =
        (acc.1 ++ leads.flatMap (leadConvRows fetch),
          acc.2 ++ leads.flatMap fun l => (leadConvErr fetch l).toList) := by
  induction leads with
  | nil =>
    intro acc
    simp
  | cons l ls ih =>
    intro acc
    rw [List.foldl_cons, convPhaseStep_eq fetch l acc,
      ih (acc.1 ++ leadConvRows fetch l, acc.2 ++ (leadConvErr fetch l).toList)]
    simp

/-- Unfolding the body of the lead-fetch fold for one list id. -/
theorem leadFetchStep_eq (fetchList : String → Except String (List Lead))
    (acc : List (String × Lead) × List ErrRec) (listId : String) :
    leadFetchStep fetchList acc listId =
      ((listFetchLeads fetchList listId).toList.foldl mergeLeads acc.1,
        acc.2 ++ (listFetchErr fetchList listId).toList) := by
  unfold leadFetchStep listFetchLeads listFetchErr
  cases hf : fetchList listId with
  | ok leads => simp
  | error e => simp

/-- The lead-fetch fold splits per list: the accumulated lead map is built
from the successful lists only, and the error list is the concatenation of
the failing lists' structured records. -/
theorem leadFetchPhase_eq (fetchList : String → Except String (List Lead))
    (listIds : List String) :
    ∀ acc : List (String × Lead) × List ErrRec,
      listIds.foldl (leadFetchStep fetchList) acc =
        ((listIds.filterMap (listFetchLeads fetchList)).foldl mergeLeads acc.1,
          acc.2 ++ listIds.flatMap fun lid => (listFetchErr fetchList lid).toList) := by
  induction listIds with
  | nil =>
    intro acc
    simp
  | cons lid rest ih =>
    intro acc
    rw [List.foldl_cons, leadFetchStep_eq, ih]
    cases hlf : listFetchLeads fetchList lid with
    | none => simp [List.filterMap_cons, hlf, List.append_assoc]
    | some leads => simp [List.filterMap_cons, hlf, List.append_assoc]

/-- C9 amended: (a) the lead-fetch loop is exactly the per-list
decomposition — a failing list fetch contributes its own structured
`{stage, listId, message}` record and no leads, and later lists are still
processed; (b) the per-lead conversation phase is exactly the per-lead
decomposition — every lead contributes its own rows on success or its own
structured `{stage, entityId, message}` record on failure, and nothing
else, so one entity's failure never disturbs another entity or aborts the
fold; (c) the per-lead run report carries the accumulated error records of
both stages verbatim; (d) the inbox-flow report's error list is the
literal empty list; (e) a Sink query failure is caught inside
`findPersonByLinkedInUrl`, which returns `null` and sends the caller down
the create path, and a Sink patch failure is swallowed by
`updatePersonFields` into an `{updated:false, error}` result — both are
only logged, never reported. -/
theorem failure_isolation_amended (fetch : String → Except String (List RawMsg))
    (fetchList : String → Except String (List Lead))
    (leads : List Lead) (listIds : List String)
    (uniqueLeads peopleCount skippedCount : Nat) (pc mc tc : Nat) :
    (leadFetchPhase fetchList listIds =
        ((listIds.filterMap (listFetchLeads fetchList)).foldl mergeLeads [],
          listIds.flatMap fun lid => (listFetchErr fetchList lid).toList)) ∧
      (∀ lid ∈ listIds, ∀ e, fetchList lid = .error e →
        ({ stage := "fetchLeadsFromList", entityId := lid, message := e } : ErrRec) ∈
            (leadFetchPhase fetchList listIds).2 ∧
          listFetchLeads fetchList lid = none) ∧
      (convPhase fetch leads =
        (leads.flatMap (leadConvRows fetch),
          leads.flatMap fun l => (leadConvErr fetch l).toList)) ∧
      (∀ lead ∈ leads, ∀ e, fetch lead.leadId = .error e → lead.leadId ≠ "" →
        normalizeLinkedInUrl lead.linkedinProfileUrl ≠ "" →
          ({ stage := "fetchConversationsForLead", entityId := lead.leadId,
             message := e } : ErrRec) ∈ (convPhase fetch leads).2 ∧
            leadConvRows fetch lead = []) ∧
      (mkLeadFlowReport uniqueLeads peopleCount skippedCount mc
          ((leadFetchPhase fetchList listIds).2 ++ (convPhase fetch leads).2)).errors =
        (leadFetchPhase fetchList listIds).2 ++ (convPhase fetch leads).2 ∧
      (mkInboxReport pc mc tc).errors = [] ∧
      (∀ cache query url e, url ≠ "" → List.lookup url cache = none →
        query url = Except.error e → findPersonByLinkedInUrl cache query url = none) ∧
      (∀ cv row, changesIsEmpty (detectChanges cv row) = false →
        (upsertExistingPerson false cv row).1.updated = false ∧
          (upsertExistingPerson false cv row).1.error = some "Non-2xx status") := by
  have hlead : leadFetchPhase fetchList listIds =
      ((listIds.filterMap (listFetchLeads fetchList)).foldl mergeLeads [],
        listIds.flatMap fun lid => (listFetchErr fetchList lid).toList) := by
    unfold leadFetchPhase
    rw [leadFetchPhase_eq]
    simp
  have hphase : convPhase fetch leads =
      (leads.flatMap (leadConvRows fetch),
        leads.flatMap fun l => (leadConvErr fetch l).toList) := by
    unfold convPhase
    rw [convPhase_eq]
    simp
  refine ⟨hlead, ?_, hphase, ?_, rfl, rfl, ?_, ?_⟩
  · intro lid hmem e hf
    constructor
    · rw [hlead]
      simp only [List.mem_flatMap]
      refine ⟨lid, hmem, ?_⟩
      unfold listFetchErr
      rw [hf]
      simp
    · unfold listFetchLeads
      rw [hf]
  · intro lead hmem e hf hid hli
    constructor
    · rw [hphase]
      simp only [List.mem_flatMap]
      refine ⟨lead, hmem, ?_⟩
      unfold leadConvErr
      rw [if_neg hid, if_neg hli, hf]
      simp
    · unfold leadConvRows
      rw [if_neg hid, if_neg hli, hf]
  · intro cache query url e hurl hcache hq
    unfold findPersonByLinkedInUrl
    rw [if_neg hurl, hcache, hq]
  · intro cv row hne
    unfold upsertExistingPerson updatePersonFields
    rw [if_neg (by simp [hne]), if_neg (by simp)]
    exact ⟨rfl, rfl⟩

/-- A Source for the C9 witness that fails exactly on lead `bad`. -/
def c9Fetch (leadId : String) : Except String (List RawMsg) :=
  if leadId = "bad" then .error "boom" else .ok [{ timestamp := "2024-01-01", body := "hi" }]

/-- Leads of the C9 witness: one healthy, one failing. -/
def c9Leads : List Lead :=
  [{ leadId := "good", linkedinProfileUrl := "https://www.linkedin.com/in/good" },
    { leadId := "bad", linkedinProfileUrl := "https://www.linkedin.com/in/bad" }]

/-- The failing lead of the C9 witness. -/
def c9BadLead : Lead :=
  { leadId := "bad", linkedinProfileUrl := "https://www.linkedin.com/in/bad" }

/-- A list-fetch Source for the C9 witness that fails exactly on list
`L2`. -/
def c9FetchLists (listId : String) : Except String (List Lead) :=
  if listId = "L2" then .error "list down" else .ok c9Leads

/-- Witness for the amended C9: the failing list's and the failing lead's
structured records are in the respective error lists, the failing lead
contributes no rows, and a failing Sink query is swallowed into the
`null`/create path. -/
theorem failure_isolation_witness :
    ({ stage := "fetchLeadsFromList", entityId := "L2", message := "list down" } : ErrRec) ∈
        (leadFetchPhase c9FetchLists ["L1", "L2"]).2 ∧
      ({ stage := "fetchConversationsForLead", entityId := "bad", message := "boom" } : ErrRec) ∈
        (convPhase c9Fetch c9Leads).2 ∧
      leadConvRows c9Fetch c9BadLead = [] ∧
      findPersonByLinkedInUrl [] (fun _ => Except.error "query down")
        "https://www.linkedin.com/in/good" = none :=
  have h := failure_isolation_amended c9Fetch c9FetchLists c9Leads ["L1", "L2"] 2 2 0 0 0 0
  ⟨(h.2.1 "L2" (by decide) "list down" rfl).1,
    (h.2.2.2.1 c9BadLead (by decide) "boom" rfl (by decide) (by decide)).1,
    (h.2.2.2.1 c9BadLead (by decide) "boom" rfl (by decide) (by decide)).2,
    h.2.2.2.2.2.2.1 [] (fun _ => Except.error "query down")
      "https://www.linkedin.com/in/good" "query down" (by decide) rfl rfl⟩

/-- The stored values of the C9 counterexample (title on file). -/
def c9Cv : CurrentValues := { job_title := some "Old title" }

/-- The fresh row of the C9 counterexample (title changed). -/
def c9Row : PersonRow := { job_title := "New title" }

/-- C9 as frozen is false on the code: a Sink patch failure for an entity
is swallowed by `updatePersonFields` (the run continues and the PATCH was
issued and failed), yet the inbox run report's error list is the literal
`[]`, so no structured error record for that failure appears in the
report. -/
theorem failure_report_counterexample :
    (upsertExistingPerson false c9Cv c9Row).2 = some (detectChanges c9Cv c9Row) ∧
      (upsertExistingPerson false c9Cv c9Row).1.updated = false ∧
      (upsertExistingPerson false c9Cv c9Row).1.error = some "Non-2xx status" ∧
      (mkInboxReport 1 0 1).errors = [] := by
  refine ⟨?_, ?_, ?_, rfl⟩ <;> rfl

/-! ## C10 — totality and idempotence of `normalizeLinkedInUrl`

Helper lemmas about characters, trimming and the URL model. -/

theorem char_toNat_ofNat (n : Nat) (h : n.isValidChar) : (Char.ofNat n).toNat = n := by
  simp only [Char.ofNat, dif_pos h, Char.ofNatAux, Char.toNat]
  rfl

theorem toLower_toNat (c : Char) :
    c.toLower.toNat = if 65 ≤ c.toNat ∧ c.toNat ≤ 90 then c.toNat + 32 else c.toNat := by
  unfold Char.toLower
  by_cases h : c.toNat ≥ 65 ∧ c.toNat ≤ 90
  · have hv : (c.toNat + 32).isValidChar := by
      left
      omega
    rw [if_pos h, if_pos (by omega), char_toNat_ofNat _ hv]
  · rw [if_neg h, if_neg (by omega)]

theorem toLower_idem (c : Char) : c.toLower.toLower = c.toLower := by
  unfold Char.toLower
  by_cases h : c.toNat ≥ 65 ∧ c.toNat ≤ 90
  · have hv : (c.toNat + 32).isValidChar := by
      left
      omega
    simp only [if_pos h, char_toNat_ofNat _ hv]
    have hno : ¬ (c.toNat + 32 ≥ 65 ∧ c.toNat + 32 ≤ 90) := by omega
    rw [if_neg hno]
  · simp [h]

theorem schemeChar_iff (c : Char) :
    schemeChar c = true ↔ (65 ≤ c.toNat ∧ c.toNat ≤ 90) ∨ (97 ≤ c.toNat ∧ c.toNat ≤ 122) := by
  simp [schemeChar]

theorem schemeChar_toLower (c : Char) (h : schemeChar c = true) :
    schemeChar c.toLower = true := by
  rw [schemeChar_iff] at h ⊢
  rw [toLower_toNat]
  split
  · omega
  · omega

theorem toLower_fixed_of_not_upper (c : Char) (h : ¬ (65 ≤ c.toNat ∧ c.toNat ≤ 90)) :
    c.toLower = c := by
  unfold Char.toLower
  rw [if_neg (by omega)]

theorem hostChar_toLower (c : Char) (h : hostChar c = true) : hostChar c.toLower = true := by
  simp only [hostChar, Bool.or_eq_true] at h ⊢
  rcases h with ((hs | hd) | hdot) | hdash
  · exact Or.inl (Or.inl (Or.inl (schemeChar_toLower c hs)))
  · rw [toLower_fixed_of_not_upper]
    · exact Or.inl (Or.inl (Or.inr hd))
    · simp [digitChar] at hd
      omega
  · have hc : c = '.' := by simpa using hdot
    subst hc
    decide
  · have hc : c = '-' := by simpa using hdash
    subst hc
    decide

theorem schemeChar_ne_colon (c : Char) (h : schemeChar c = true) : c ≠ ':' := by
  intro rfl_eq
  subst rfl_eq
  exact absurd h (by decide)

theorem schemeChar_not_ws (c : Char) (h : schemeChar c = true) : c.isWhitespace = false := by
  by_contra hw
  simp only [Bool.not_eq_false] at hw
  simp only [Char.isWhitespace, Bool.or_eq_true, decide_eq_true_eq] at hw
  rcases hw with (((rfl) | (rfl)) | (rfl)) | (rfl) <;> exact absurd h (by decide)

theorem digitChar_not_ws (c : Char) (h : digitChar c = true) : c.isWhitespace = false := by
  by_contra hw
  simp only [Bool.not_eq_false] at hw
  simp only [Char.isWhitespace, Bool.or_eq_true, decide_eq_true_eq] at hw
  rcases hw with (((rfl) | (rfl)) | (rfl)) | (rfl) <;> exact absurd h (by decide)

theorem hostChar_not_ws (c : Char) (h : hostChar c = true) : c.isWhitespace = false := by
  simp only [hostChar, Bool.or_eq_true] at h
  rcases h with ((hs | hd) | hdot) | hdash
  · exact schemeChar_not_ws c hs
  · exact digitChar_not_ws c hd
  · have : c = '.' := by simpa using hdot
    subst this
    decide
  · have : c = '-' := by simpa using hdash
    subst this
    decide

theorem pathChar_not_ws (c : Char) (h : pathChar c = true) : c.isWhitespace = false := by
  simp only [pathChar, Bool.or_eq_true, decide_eq_true_eq] at h
  rcases h with (hs | hd) | hmem
  · exact schemeChar_not_ws c hs
  · exact digitChar_not_ws c hd
  · fin_cases hmem <;> decide

theorem pathChar_ne_query (c : Char) (h : pathChar c = true) : c ≠ '?' ∧ c ≠ '#' := by
  constructor
  · intro he
    subst he
    exact absurd h (by decide)
  · intro he
    subst he
    exact absurd h (by decide)

theorem hostChar_slash : hostChar '/' = false := by decide

/-! List helper lemmas for trimming and splitting. -/

theorem dropWhile_dropWhile (p : Char → Bool) (l : List Char) :
    (l.dropWhile p).dropWhile p = l.dropWhile p := by
  induction l with
  | nil => rfl
  | cons c cs ih =>
    by_cases hc : p c
    · rw [List.dropWhile_cons_of_pos hc]
      exact ih
    · rw [List.dropWhile_cons_of_neg hc, List.dropWhile_cons_of_neg hc]

theorem dropWhile_length_le (p : Char → Bool) (l : List Char) :
    (l.dropWhile p).length ≤ l.length := by
  induction l with
  | nil => simp
  | cons c cs ih =>
    by_cases hc : p c
    · rw [List.dropWhile_cons_of_pos hc]
      exact Nat.le_succ_of_le ih
    · rw [List.dropWhile_cons_of_neg hc]

theorem dropWhile_eq_self_of_prefix (p : Char → Bool) {l m : List Char}
    (hl : l.dropWhile p = l) (hm : m <+: l) : m.dropWhile p = m := by
  cases m with
  | nil => rfl
  | cons a t =>
    obtain ⟨r, hr⟩ := hm
    rw [List.cons_append] at hr
    subst hr
    by_cases ha : p a
    · exfalso
      rw [List.dropWhile_cons_of_pos ha] at hl
      have hlen := congrArg List.length hl
      have hle := dropWhile_length_le p (t ++ r)
      rw [List.length_cons] at hlen
      omega
    · rw [List.dropWhile_cons_of_neg ha]

theorem jsTrimChars_idem (l : List Char) : jsTrimChars (jsTrimChars l) = jsTrimChars l := by
  unfold jsTrimChars
  set p := Char.isWhitespace with hp
  set m := l.dropWhile p with hm
  set x := (m.reverse.dropWhile p) with hx
  have hxm : x.reverse <+: m := by
    have hsuf : x <:+ m.reverse := by
      rw [hx]
      exact List.dropWhile_suffix p
    have := (@List.reverse_prefix _ x m.reverse).mpr hsuf
    rwa [List.reverse_reverse] at this
  have hmfix : m.dropWhile p = m := by
    rw [hm]
    exact dropWhile_dropWhile p l
  have hfront : x.reverse.dropWhile p = x.reverse :=
    dropWhile_eq_self_of_prefix p hmfix hxm
  rw [hfront, List.reverse_reverse, hx, dropWhile_dropWhile]

theorem jsTrim_idem (s : String) : jsTrim (jsTrim s) = jsTrim s := by
  unfold jsTrim
  rw [show (String.mk (jsTrimChars s.data)).data = jsTrimChars s.data from rfl,
    jsTrimChars_idem]

theorem dropWhile_eq_self_of_all (p : Char → Bool) (l : List Char)
    (h : ∀ c ∈ l, p c = false) : l.dropWhile p = l := by
  cases l with
  | nil => rfl
  | cons c cs => exact List.dropWhile_cons_of_neg (by simp [h c (by simp)])

theorem jsTrimChars_eq_self (l : List Char) (h : ∀ c ∈ l, c.isWhitespace = false) :
    jsTrimChars l = l := by
  unfold jsTrimChars
  rw [dropWhile_eq_self_of_all _ _ h,
    dropWhile_eq_self_of_all _ _ (by intro c hc; exact h c (by simpa using hc)),
    List.reverse_reverse]

theorem jsTrim_eq_self (s : String) (h : ∀ c ∈ s.data, c.isWhitespace = false) :
    jsTrim s = s := by
  unfold jsTrim
  rw [jsTrimChars_eq_self _ h]

theorem splitFirstAux_append (s0 : Char) (srest a b : List Char) (ha : ∀ c ∈ a, c ≠ s0) :
    splitFirstAux (s0 :: srest) (a ++ (s0 :: srest) ++ b) = some (a, b) := by
  induction a with
  | nil =>
    simp only [List.nil_append]
    rw [List.cons_append]
    unfold splitFirstAux
    rw [if_pos]
    · rw [← List.cons_append, List.drop_left]
    · exact List.isPrefixOf_iff_prefix.mpr (by rw [← List.cons_append]; exact List.prefix_append _ _)
  | cons x a' ih =>
    have hx : x ≠ s0 := ha x (by simp)
    rw [List.cons_append, List.cons_append]
    unfold splitFirstAux
    rw [if_neg]
    · rw [ih (by intro c hc; exact ha c (by simp [hc]))]
      rfl
    · intro hpre
      have := List.isPrefixOf_iff_prefix.mp hpre
      obtain ⟨r, hr⟩ := this
      rw [List.cons_append] at hr
      have : s0 = x := by
        have := congrArg List.head? hr
        simpa using this
      exact hx this.symm

theorem takeWhile_append_all (p : Char → Bool) (a b : List Char)
    (ha : ∀ c ∈ a, p c = true) (hb : ∀ x, b.head? = some x → p x = false) :
    (a ++ b).takeWhile p = a ∧ (a ++ b).dropWhile p = b := by
  induction a with
  | nil =>
    simp only [List.nil_append]
    cases b with
    | nil => simp
    | cons x bs =>
      have := hb x rfl
      rw [List.takeWhile_cons_of_neg (by simp [this]), List.dropWhile_cons_of_neg (by simp [this])]
      exact ⟨rfl, rfl⟩
  | cons c a' ih =>
    have hc : p c = true := ha c (by simp)
    rw [List.cons_append, List.takeWhile_cons_of_pos hc, List.dropWhile_cons_of_pos hc]
    have := ih (by intro d hd; exact ha d (by simp [hd]))
    exact ⟨by rw [this.1], this.2⟩

theorem takeWhile_eq_self_of_all (p : Char → Bool) (l : List Char)
    (h : ∀ c ∈ l, p c = true) : l.takeWhile p = l := by
  induction l with
  | nil => rfl
  | cons c cs ih =>
    rw [List.takeWhile_cons_of_pos (h c (by simp)), ih (by intro d hd; exact h d (by simp [hd]))]

theorem map_eq_self_of_fixed {f : Char → Char} {l : List Char} (h : ∀ c ∈ l, f c = c) :
    l.map f = l := by
  induction l with
  | nil => rfl
  | cons c cs ih =>
    rw [List.map_cons, h c (by simp), ih (by intro d hd; exact h d (by simp [hd]))]

theorem mk_data_eq (l : List Char) : (String.mk l).data = l := rfl

theorem str_ne_empty_of_data {s : String} (h : s.data ≠ []) : s ≠ "" := by
  intro he
  rw [he] at h
  exact h rfl

theorem head?_dropLast {l : List Char} {x : Char} (h : l.head? = some x)
    (hne : l.dropLast ≠ []) : l.dropLast.head? = some x := by
  cases l with
  | nil => simp at h
  | cons a t =>
    cases t with
    | nil => simp at hne
    | cons b bs =>
      simp only [List.head?_cons, Option.some.injEq] at h
      subst h
      rfl

theorem mem_dropLast {l : List Char} {c : Char} (h : c ∈ l.dropLast) : c ∈ l :=
  List.IsPrefix.mem h (List.dropLast_prefix l)

theorem getLast?_append_right {l m : List Char} (hm : m ≠ []) :
    (l ++ m).getLast? = m.getLast? := by
  rw [List.getLast?_append]
  cases hg : m.getLast? with
  | none =>
    exfalso
    exact hm (by simpa using hg)
  | some y => rfl

/-- Well-formedness of the URLs `parseUrl` produces. -/
def wellFormedUrl (u : JsUrl) : Prop :=
  u.scheme.data ≠ [] ∧ (∀ c ∈ u.scheme.data, schemeChar c = true ∧ c.toLower = c) ∧
    u.host.data ≠ [] ∧ (∀ c ∈ u.host.data, hostChar c = true ∧ c.toLower = c) ∧
    u.pathname.data.head? = some '/' ∧ ∀ c ∈ u.pathname.data, pathChar c = true

theorem parseUrl_empty : parseUrl "" = none := rfl

theorem parseUrl_ne_empty {s : String} {u : JsUrl} (h : parseUrl s = some u) : s ≠ "" := by
  intro he
  rw [he, parseUrl_empty] at h
  exact absurd h (by simp)

theorem parseUrl_wellFormed {s : String} {u : JsUrl} (h : parseUrl s = some u) :
    wellFormedUrl u := by
  unfold parseUrl at h
  split at h
  · exact absurd h (by simp)
  next sch rest hsp =>
    split at h
    · exact absurd h (by simp)
    next h1 =>
      rw [not_or, not_not] at h1
      obtain ⟨hsne, hall⟩ := h1
      split at h
      · exact absurd h (by simp)
      next h2 =>
        split at h
        · exact absurd h (by simp)
        next h3 =>
          split at h
          · exact absurd h (by simp)
          next h4 =>
            rw [not_not] at h3
            rw [Option.some.injEq] at h
            subst h
            refine ⟨?_, ?_, ?_, ?_, ?_, ?_⟩
            · rw [mk_data_eq]
              simp only [ne_eq, List.map_eq_nil_iff]
              exact hsne
            · rw [mk_data_eq]
              intro c hc
              rw [List.mem_map] at hc
              obtain ⟨c2, hc2, hlow⟩ := hc
              subst hlow
              exact ⟨schemeChar_toLower c2 (by
                  rw [List.all_eq_true] at hall
                  exact hall c2 hc2),
                toLower_idem c2⟩
            · rw [mk_data_eq]
              simp only [ne_eq, List.map_eq_nil_iff]
              exact h2
            · rw [mk_data_eq]
              intro c hc
              rw [List.mem_map] at hc
              obtain ⟨c2, hc2, hlow⟩ := hc
              subst hlow
              exact ⟨hostChar_toLower c2 (List.mem_takeWhile_imp hc2), toLower_idem c2⟩
            · split
              · rfl
              next hpe =>
                rw [mk_data_eq]
                cases hah : rest.dropWhile hostChar with
                | nil =>
                  exfalso
                  rw [hah] at hpe
                  exact hpe rfl
                | cons a0 tl =>
                  have hmem : a0 = '/' ∨ a0 = '?' ∨ a0 = '#' := by
                    rw [hah] at h4
                    rw [not_and] at h4
                    have h5 := h4 (by simp)
                    rw [not_not] at h5
                    simpa using h5
                  rcases hmem with rfl | rfl | rfl
                  · rw [List.takeWhile_cons_of_pos (by decide)]
                    rfl
                  · exfalso
                    rw [hah, List.takeWhile_cons_of_neg (by decide)] at hpe
                    exact hpe rfl
                  · exfalso
                    rw [hah, List.takeWhile_cons_of_neg (by decide)] at hpe
                    exact hpe rfl
            · split
              · intro c hc
                fin_cases hc
                decide
              · rw [mk_data_eq]
                rw [List.all_eq_true] at h3
                exact h3

theorem urlHref_data (u : JsUrl) :
    (urlHref u).data =
      u.scheme.data ++ [':', '/', '/'] ++ u.host.data ++ u.pathname.data := rfl

theorem urlHref_no_ws (u : JsUrl) (h : wellFormedUrl u) :
    ∀ c ∈ (urlHref u).data, c.isWhitespace = false := by
  obtain ⟨-, hsch, -, hhost, -, hpath⟩ := h
  intro c hc
  rw [urlHref_data] at hc
  simp only [List.append_assoc, List.mem_append] at hc
  rcases hc with hs | hsep | hh | hp
  · exact schemeChar_not_ws c (hsch c hs).1
  · fin_cases hsep <;> decide
  · exact hostChar_not_ws c (hhost c hh).1
  · exact pathChar_not_ws c (hpath c hp)

theorem urlHref_ne_empty (u : JsUrl) (_h : wellFormedUrl u) : urlHref u ≠ "" := by
  apply str_ne_empty_of_data
  rw [urlHref_data]
  intro he
  have hlen := congrArg List.length he
  simp [List.length_append] at hlen

theorem pathname_ne_nil (u : JsUrl) (h : wellFormedUrl u) : u.pathname.data ≠ [] := by
  obtain ⟨-, -, -, -, hphead, -⟩ := h
  intro he
  rw [he] at hphead
  exact absurd hphead (by simp)

theorem endsWithSlash_urlHref (u : JsUrl) (h : wellFormedUrl u) :
    endsWithSlash (urlHref u) = endsWithSlash u.pathname := by
  unfold endsWithSlash
  rw [urlHref_data, getLast?_append_right (pathname_ne_nil u h)]

theorem parseUrl_href (u : JsUrl) (h : wellFormedUrl u) : parseUrl (urlHref u) = some u := by
  obtain ⟨hsne, hsch, hhne, hhost, hphead, hpath⟩ := h
  unfold parseUrl
  rw [urlHref_data]
  have hassoc : u.scheme.data ++ [':', '/', '/'] ++ u.host.data ++ u.pathname.data =
      u.scheme.data ++ [':', '/', '/'] ++ (u.host.data ++ u.pathname.data) := by
    simp [List.append_assoc]
  rw [hassoc,
    splitFirstAux_append ':' ['/', '/'] _ _ (fun c hc => schemeChar_ne_colon c (hsch c hc).1)]
  have htd := takeWhile_append_all hostChar u.host.data u.pathname.data
    (fun c hc => (hhost c hc).1)
    (by
      intro x hx
      rw [hphead] at hx
      rw [Option.some.injEq] at hx
      subst hx
      exact hostChar_slash)
  have hq : u.pathname.data.takeWhile (fun c => decide (c ≠ '?' ∧ c ≠ '#')) =
      u.pathname.data := by
    apply takeWhile_eq_self_of_all
    intro c hc
    exact decide_eq_true (pathChar_ne_query c (hpath c hc))
  simp only [htd.1, htd.2, hq]
  rw [if_neg (by
    rw [not_or, not_not]
    exact ⟨hsne, List.all_eq_true.mpr fun c hc => (hsch c hc).1⟩)]
  rw [if_neg hhne]
  rw [if_neg (by
    rw [not_not]
    exact List.all_eq_true.mpr hpath)]
  rw [if_neg (by
    rintro ⟨-, hnot⟩
    apply hnot
    rw [hphead]
    simp)]
  rw [if_neg (pathname_ne_nil u ⟨hsne, hsch, hhne, hhost, hphead, hpath⟩)]
  rw [map_eq_self_of_fixed (fun c hc => (hsch c hc).2),
    map_eq_self_of_fixed (fun c hc => (hhost c hc).2)]

theorem dropWhile_nil_of_all (p : Char → Bool) (l : List Char)
    (h : ∀ c ∈ l, p c = true) : l.dropWhile p = [] := by
  induction l with
  | nil => rfl
  | cons c cs ih =>
    rw [List.dropWhile_cons_of_pos (h c (by simp)), ih fun d hd => h d (by simp [hd])]

theorem parseUrl_hostonly (u : JsUrl) (h : wellFormedUrl u) (hpath : u.pathname = "/") :
    parseUrl (String.mk (u.scheme.data ++ [':', '/', '/'] ++ u.host.data)) = some u := by
  obtain ⟨hsne, hsch, hhne, hhost, hphead, hpathc⟩ := h
  unfold parseUrl
  rw [mk_data_eq,
    splitFirstAux_append ':' ['/', '/'] _ _ (fun c hc => schemeChar_ne_colon c (hsch c hc).1)]
  simp only [takeWhile_eq_self_of_all hostChar u.host.data (fun c hc => (hhost c hc).1),
    dropWhile_nil_of_all hostChar u.host.data (fun c hc => (hhost c hc).1),
    List.takeWhile_nil]
  rw [if_neg (by
    rw [not_or, not_not]
    exact ⟨hsne, List.all_eq_true.mpr fun c hc => (hsch c hc).1⟩)]
  rw [if_neg hhne]
  rw [if_neg (by
    rw [not_not]
    simp)]
  rw [if_neg (by
    rintro ⟨hne, -⟩
    exact hne rfl)]
  simp only [if_true]
  rw [map_eq_self_of_fixed (fun c hc => (hsch c hc).2),
    map_eq_self_of_fixed (fun c hc => (hhost c hc).2)]
  rw [← hpath]

theorem str_ext {a b : String} (h : a.data = b.data) : a = b := by
  cases a
  cases b
  exact congrArg String.mk h

theorem normalize_parse_none {s : String} (hs : s ≠ "") (hp : parseUrl (jsTrim s) = none) :
    normalizeLinkedInUrl s = jsTrim s := by
  unfold normalizeLinkedInUrl
  rw [if_neg hs, hp]

theorem normalize_not_linkedin {s : String} {u : JsUrl} (hs : s ≠ "")
    (hp : parseUrl (jsTrim s) = some u) (hl : hostIncludesLinkedin u = false) :
    normalizeLinkedInUrl s = jsTrim s := by
  unfold normalizeLinkedInUrl
  rw [if_neg hs, hp]
  simp only [hl, Bool.false_eq_true, if_false]

theorem normalize_linkedin {s : String} {u : JsUrl} (hs : s ≠ "")
    (hp : parseUrl (jsTrim s) = some u) (hl : hostIncludesLinkedin u = true) :
    normalizeLinkedInUrl s =
      if endsWithSlash (urlHref u) then dropLastChar (urlHref u) else urlHref u := by
  unfold normalizeLinkedInUrl
  rw [if_neg hs, hp]
  simp only [hl, if_true]

theorem jsTrim_urlHref (u : JsUrl) (h : wellFormedUrl u) : jsTrim (urlHref u) = urlHref u :=
  jsTrim_eq_self _ (urlHref_no_ws u h)

theorem preHost_ne_empty (u : JsUrl) :
    String.mk (u.scheme.data ++ [':', '/', '/'] ++ u.host.data) ≠ "" := by
  apply str_ne_empty_of_data
  rw [mk_data_eq]
  intro he
  have hlen := congrArg List.length he
  simp [List.length_append] at hlen

theorem preHost_no_ws (u : JsUrl) (h : wellFormedUrl u) :
    ∀ c ∈ (String.mk (u.scheme.data ++ [':', '/', '/'] ++ u.host.data)).data,
      c.isWhitespace = false := by
  obtain ⟨-, hsch, -, hhost, -, -⟩ := h
  intro c hc
  rw [mk_data_eq] at hc
  simp only [List.append_assoc, List.mem_append] at hc
  rcases hc with h1 | h2 | h3
  · exact schemeChar_not_ws c (hsch c h1).1
  · fin_cases h2 <;> decide
  · exact hostChar_not_ws c (hhost c h3).1

/-- C10 amended: `normalizeLinkedInUrl` is total — it maps the empty
(falsy) input to `''` and any unparseable or non-LinkedIn input to its
trimmed self — and applying it twice equals applying it once for every
input whose normalized result does not end in `'/'`.  (Unconditional
idempotence is false: see the counterexample, a LinkedIn URL whose path
ends in a double slash.) -/
theorem normalize_total_idempotent :
    normalizeLinkedInUrl "" = "" ∧
      (∀ s : String, s ≠ "" → parseUrl (jsTrim s) = none →
        normalizeLinkedInUrl s = jsTrim s) ∧
      (∀ s : String, ∀ u : JsUrl, s ≠ "" → parseUrl (jsTrim s) = some u →
        hostIncludesLinkedin u = false → normalizeLinkedInUrl s = jsTrim s) ∧
      (∀ s : String, endsWithSlash (normalizeLinkedInUrl s) = false →
        normalizeLinkedInUrl (normalizeLinkedInUrl s) = normalizeLinkedInUrl s) := by
  refine ⟨rfl, fun s hs hp => normalize_parse_none hs hp,
    fun s u hs hp hl => normalize_not_linkedin hs hp hl, ?_⟩
  intro s hslash
  by_cases hs : s = ""
  · subst hs
    rfl
  cases hp : parseUrl (jsTrim s) with
  | none =>
    rw [normalize_parse_none hs hp]
    by_cases ht : jsTrim s = ""
    · rw [ht]
      rfl
    · rw [normalize_parse_none ht (by rw [jsTrim_idem]; exact hp)]
      exact jsTrim_idem s
  | some u =>
    by_cases hl : hostIncludesLinkedin u
    · have hwf : wellFormedUrl u := parseUrl_wellFormed hp
      have hpne : u.pathname.data ≠ [] := pathname_ne_nil u hwf
      rw [normalize_linkedin hs hp hl] at hslash ⊢
      by_cases hes : endsWithSlash (urlHref u)
      · rw [if_pos hes] at hslash ⊢
        have hplast : u.pathname.data.getLast? = some '/' := by
          have heq := endsWithSlash_urlHref u hwf
          rw [hes] at heq
          exact of_decide_eq_true
            (show decide (u.pathname.data.getLast? = some '/') = true from heq.symm)
        by_cases hpd : u.pathname.data.dropLast = []
        · -- the pathname was exactly "/": the normalized URL has no path part
          have hpone : u.pathname.data = ['/'] := by
            cases hpl : u.pathname.data with
            | nil => exact absurd hpl hpne
            | cons a tl =>
              cases tl with
              | nil =>
                rw [hpl] at hplast
                simp at hplast
                rw [hplast]
              | cons b bs =>
                exfalso
                rw [hpl] at hpd
                simp [List.dropLast] at hpd
          have hpstr : u.pathname = "/" := str_ext (by rw [hpone])
          have htmk : dropLastChar (urlHref u) =
              String.mk (u.scheme.data ++ [':', '/', '/'] ++ u.host.data) := by
            apply str_ext
            unfold dropLastChar
            rw [mk_data_eq, mk_data_eq, urlHref_data]
            rw [show u.scheme.data ++ [':', '/', '/'] ++ u.host.data ++ u.pathname.data =
                (u.scheme.data ++ [':', '/', '/'] ++ u.host.data) ++ u.pathname.data from rfl]
            rw [List.dropLast_append_of_ne_nil _ hpne, hpd, List.append_nil]
          rw [htmk]
          rw [normalize_linkedin (preHost_ne_empty u)
            (by rw [jsTrim_eq_self _ (preHost_no_ws u hwf)]
                exact parseUrl_hostonly u hwf hpstr) hl]
          rw [if_pos hes, htmk]
        · -- the pathname keeps a non-empty tail after dropping the slash
          have hwf2 : wellFormedUrl
              { scheme := u.scheme, host := u.host,
                pathname := String.mk u.pathname.data.dropLast } := by
            obtain ⟨hsne, hsch, hhne, hhost, hphead, hpath⟩ := hwf
            exact ⟨hsne, hsch, hhne, hhost,
              head?_dropLast hphead hpd,
              fun c hc => hpath c (mem_dropLast hc)⟩
          have ht2 : dropLastChar (urlHref u) =
              urlHref { scheme := u.scheme, host := u.host,
                        pathname := String.mk u.pathname.data.dropLast } := by
            apply str_ext
            unfold dropLastChar
            rw [mk_data_eq, urlHref_data, urlHref_data]
            rw [show u.scheme.data ++ [':', '/', '/'] ++ u.host.data ++ u.pathname.data =
                (u.scheme.data ++ [':', '/', '/'] ++ u.host.data) ++ u.pathname.data from rfl]
            rw [List.dropLast_append_of_ne_nil _ hpne]
          rw [ht2] at hslash ⊢
          have hl2 : hostIncludesLinkedin
              { scheme := u.scheme, host := u.host,
                pathname := String.mk u.pathname.data.dropLast } = true := hl
          rw [normalize_linkedin (urlHref_ne_empty _ hwf2)
            (by rw [jsTrim_urlHref _ hwf2]
                exact parseUrl_href _ hwf2) hl2]
          rw [if_neg (by simp [hslash])]
      · rw [if_neg hes] at hslash ⊢
        rw [normalize_linkedin (urlHref_ne_empty u hwf)
          (by rw [jsTrim_urlHref u hwf]
              exact parseUrl_href u hwf) hl]
        rw [if_neg hes]
    · have hl' : hostIncludesLinkedin u = false := by simpa using hl
      rw [normalize_not_linkedin hs hp hl']
      rw [normalize_not_linkedin (parseUrl_ne_empty hp) (by rw [jsTrim_idem]; exact hp) hl']
      exact jsTrim_idem s

/-- C10 as frozen is false: `normalizeLinkedInUrl` is not idempotent.  A
LinkedIn URL whose path ends in a double slash normalizes to a URL with a
single trailing slash, and a second application strips one more slash. -/
theorem normalize_idempotence_counterexample :
    normalizeLinkedInUrl "https://www.linkedin.com/in/x//" =
        "https://www.linkedin.com/in/x/" ∧
      normalizeLinkedInUrl (normalizeLinkedInUrl "https://www.linkedin.com/in/x//") =
        "https://www.linkedin.com/in/x" ∧
      normalizeLinkedInUrl (normalizeLinkedInUrl "https://www.linkedin.com/in/x//") ≠
        normalizeLinkedInUrl "https://www.linkedin.com/in/x//" := by
  refine ⟨?_, ?_, ?_⟩ <;> decide

/-- Witness for the amended C10 at an unparseable input and at a LinkedIn
URL with a query string. -/
theorem normalize_total_idempotent_witness :
    normalizeLinkedInUrl "not a url" = jsTrim "not a url" ∧
      normalizeLinkedInUrl (normalizeLinkedInUrl "https://www.linkedin.com/in/foo?trk=x") =
        normalizeLinkedInUrl "https://www.linkedin.com/in/foo?trk=x" :=
  ⟨normalize_total_idempotent.2.1 "not a url" (by decide) (by decide),
    normalize_total_idempotent.2.2.2 "https://www.linkedin.com/in/foo?trk=x" (by decide)⟩

end HeyReach
